import Mathlib

/-!
Verification development for the v0-clone backend (workflow orchestration and
event-streaming pipeline).  Strings are modelled as `List Char`; the Python
regular expressions of the File Extractor are modelled by explicit
backtracking matchers that follow the leftmost/greedy/lazy semantics of
Python's `re` module for the two concrete patterns used by the source.
-/

/-- Strings of the embedded program are lists of characters. -/
abbrev Str := List Char

/-- Character list of a Lean string literal. -/
def lit (s : String) : Str := s.data

/-- The backquote character (the fence delimiter). -/
def btick : Char := Char.ofNat 96

/-- Python whitespace class used by `str.strip` and the regex class `\s`
(ASCII fragment). -/
def isSpaceChar (c : Char) : Bool :=
  c = ' ' || c = '\t' || c = '\n' || c = '\r' || c = Char.ofNat 11 || c = Char.ofNat 12

/-- Python regex class `\w` (ASCII fragment): letters, digits, underscore. -/
def isWordChar (c : Char) : Bool :=
  (('a' ≤ c && c ≤ 'z') || ('A' ≤ c && c ≤ 'Z') || ('0' ≤ c && c ≤ '9') || c = '_')

/-- ASCII lower-casing, as applied by Python `str.lower` on the ASCII range. -/
def asciiLower (c : Char) : Char :=
  if 'A' ≤ c && c ≤ 'Z' then Char.ofNat (c.toNat + 32) else c

/-- Python `str.lower` on the embedded strings. -/
def lowerStr (s : Str) : Str := s.map asciiLower

/-- Is `pat` a leading segment of `s`. -/
def startsWithL : Str → Str → Bool
  | [], _ => true
  | _ :: _, [] => false
  | p :: ps, c :: cs => p = c && startsWithL ps cs

/-- Python `pat in s` (substring containment). -/
def isSubstr : Str → Str → Bool
  | pat, [] => pat = []
  | pat, c :: rest => startsWithL pat (c :: rest) || isSubstr pat rest

/-- Python `str.strip()`: remove leading and trailing whitespace. -/
def pyStrip (s : Str) : Str :=
  ((s.dropWhile isSpaceChar).reverse.dropWhile isSpaceChar).reverse

/-- Python `dict` insertion: `d[k] = v` overwrites in place, keeping the
original insertion position of the key; a new key is appended. -/
def dictInsert (files : List (Str × Str)) (k v : Str) : List (Str × Str) :=
  if files.any (fun p => p.1 = k) then
    files.map (fun p => if p.1 = k then (k, v) else p)
  else files ++ [(k, v)]

/-- All ways to split `s` into a prefix of characters satisfying `p` and the
remaining suffix, longest prefix first.  This is the backtracking choice
sequence of a greedy `\s*` / `(\w+)?` regex item. -/
def splitsDesc (p : Char → Bool) (s : Str) : List (Str × Str) :=
  ((List.range (s.takeWhile p).length.succ).reverse).map
    (fun k => ((s.takeWhile p).take k, (s.takeWhile p).drop k ++ s.drop (s.takeWhile p).length))

/-- Does `s` begin with the three-backquote fence. -/
def startsFence : Str → Bool
  | c1 :: c2 :: c3 :: _ => c1 = btick && c2 = btick && c3 = btick
  | _ => false

/-- Split `s` at the first occurrence of the fence: returns the text before
it and the text after it.  This is the behaviour of a lazy `(.*?)` followed
by a literal fence. -/
def splitAtFence : Str → Option (Str × Str)
  | [] => none
  | c :: rest =>
    if startsFence (c :: rest) then some ([], (c :: rest).drop 3)
    else (splitAtFence rest).map (fun pr => (c :: pr.1, pr.2))

/-- Regex tail `([^\n]*)\n(.*?)` followed by the closing fence: the hint
group runs to the next newline (which must exist), the body group runs
lazily to the first fence.  Returns (hint, body, rest-after-match). -/
def tryBD (s : Str) : Option (Str × Str × Str) :=
  match s.drop (s.takeWhile (fun c => !(c = '\n'))).length with
  | '\n' :: after =>
    (splitAtFence after).map
      (fun pr => (s.takeWhile (fun c => !(c = '\n')), pr.1, pr.2))
  | _ => none

/-- Optional group `(?:\/\/\s*)?` before the hint: if the text starts with
`//`, first try consuming it together with a greedy (backtracking) run
of whitespace; if every such attempt fails, fall back to not matching
the group at all. -/
def tryCBD (s : Str) : Option (Str × Str × Str) :=
  match s with
  | '/' :: '/' :: r =>
    match (splitsDesc isSpaceChar r).findSome? (fun pr => tryBD pr.2) with
    | some v => some v
    | none => tryBD s
  | _ => tryBD s

/-- Greedy backtracking `\s*` before the optional `//` group. -/
def tryBCBD (s : Str) : Option (Str × Str × Str) :=
  (splitsDesc isSpaceChar s).findSome? (fun pr => tryCBD pr.2)

/-- The part of the fenced-block pattern after the opening fence:
`(\w+)?\s*(?:\/\/\s*)?([^\n]*)\n(.*?)` and the closing fence.  Returns
(language tag, hint, body, rest-after-match). -/
def tryMatchAfterFence (s : Str) : Option (Str × Str × Str × Str) :=
  (splitsDesc isWordChar s).findSome?
    (fun pr => (tryBCBD pr.2).map (fun v => (pr.1, v.1, v.2.1, v.2.2)))

/-- Scanner for `re.finditer` over the fenced-block pattern.  The first
argument counts characters still to be skipped because they belong to the
previous (non-overlapping) match; at skip 0 a match is attempted at the
current position, and on failure the scan advances one character. -/
def findBlocksGo : Nat → Str → List (Str × Str × Str)
  | _, [] => []
  | Nat.succ k, _ :: rest => findBlocksGo k rest
  | 0, c :: rest =>
    if startsFence (c :: rest) then
      match tryMatchAfterFence (rest.drop 2) with
      | some v => (v.1, v.2.1, v.2.2.1) :: findBlocksGo (rest.length - v.2.2.2.length) rest
      | none => findBlocksGo 0 rest
    else findBlocksGo 0 rest

/-- All matches of the Python pattern
``` ```(\w+)?\s*(?:\/\/\s*)?([^\n]*)\n(.*?)``` ``` (with `re.DOTALL`) in
order, as (language tag, path hint, body) triples; an unmatched optional
tag group is the empty string (the source applies `or ''`). -/
def findBlocks (s : Str) : List (Str × Str × Str) := findBlocksGo 0 s

/-- Path determination of `parse_code_from_response` / `parse_claude_response`
(identical in `backend/main.py` and `backend/v0-clone-backend.py`): a hint
containing `/` or `.` is the path verbatim, otherwise the path is inferred
from the language tag. -/
def determine_file_path (language potential_path : Str) : Str :=
  if potential_path ≠ [] && (potential_path.contains '/' || potential_path.contains '.') then
    potential_path
  else if language = lit "javascript" || language = lit "jsx" || language = lit "js" then
    lit "src/" ++ (if potential_path = [] then lit "App" else potential_path) ++ lit ".jsx"
  else if language = lit "css" then
    lit "src/" ++ (if potential_path = [] then lit "App" else potential_path) ++ lit ".css"
  else if language = lit "html" then
    lit "public/index.html"
  else
    lit "src/Component." ++ (if language = [] then lit "jsx" else language)

/-- Primary fenced-block pass shared by both extractors: for each match,
strip hint and body and store under the determined path (Python dict
semantics). -/
def fencedPass (content : Str) : List (Str × Str) :=
  (findBlocks content).foldl
    (fun fs m => dictInsert fs (determine_file_path m.1 (pyStrip m.2.1)) (pyStrip m.2.2)) []

/-- `parse_code_from_response` of `backend/main.py`: the primary fenced-block
pass only (this extractor has no fallback pass). -/
def parse_code_from_response (content : Str) : List (Str × Str) :=
  fencedPass content

/-- Tail of the fallback marker pattern after the literal `File:`/`file:`:
`\s*([^\n]+)\n(.*?)(?=(?:\n(?:File|file):|$))` compiled with
`re.DOTALL | re.MULTILINE`.  Because `re.MULTILINE` makes the `$` of the
lookahead match before every newline, the lazy content group always stops
at the first line end, so the content is the first line after the path
line.  Returns (path, content, rest-after-match). -/
def markerTail (s : Str) : Option (Str × Str × Str) :=
  (splitsDesc isSpaceChar s).findSome? (fun pr =>
    if (pr.2.takeWhile (fun c => !(c = '\n'))) = [] then none
    else
      match pr.2.drop (pr.2.takeWhile (fun c => !(c = '\n'))).length with
      | '\n' :: after =>
        some (pr.2.takeWhile (fun c => !(c = '\n')),
              after.takeWhile (fun c => !(c = '\n')),
              after.drop (after.takeWhile (fun c => !(c = '\n'))).length)
      | _ => none)

/-- Attempt the fallback marker pattern at the current position (which the
caller has checked to be the string start or just after a newline, the
positions where `(?:^|\n)` can succeed). -/
def matchMarkerAt (s : Str) : Option (Str × Str × Str) :=
  match s with
  | 'F' :: 'i' :: 'l' :: 'e' :: ':' :: rest => markerTail rest
  | 'f' :: 'i' :: 'l' :: 'e' :: ':' :: rest => markerTail rest
  | _ => none

/-- Scanner for `re.finditer` over the fallback marker pattern.  The Nat
counts characters still to skip from the previous match; the Bool records
whether the current position is the string start or preceded by a
newline. -/
def findMarkersGo : Nat → Bool → Str → List (Str × Str)
  | _, _, [] => []
  | Nat.succ k, _, c :: rest => findMarkersGo k (c = '\n') rest
  | 0, atLS, c :: rest =>
    if atLS then
      match matchMarkerAt (c :: rest) with
      | some v => (v.1, v.2.1) :: findMarkersGo (rest.length - v.2.2.length) (c = '\n') rest
      | none => findMarkersGo 0 (c = '\n') rest
    else findMarkersGo 0 (c = '\n') rest

/-- All matches of the fallback pattern
`(?:^|\n)(?:File|file):\s*([^\n]+)\n(.*?)(?=(?:\n(?:File|file):|$))`
(with `re.DOTALL | re.MULTILINE`), as (path, content) pairs. -/
def findMarkers (s : Str) : List (Str × Str) := findMarkersGo 0 true s

/-- One step of `re.sub(r'^```\w*\n|```$', '', content, flags=re.MULTILINE)`:
at a position opening a fence, the length of the match if one of the two
alternatives applies (`atLS` says whether `^` can match here). -/
def fenceSubMatch (atLS : Bool) (s : Str) : Option Nat :=
  if startsFence s then
    if atLS &&
        (match (s.drop 3).drop ((s.drop 3).takeWhile isWordChar).length with
         | '\n' :: _ => true
         | _ => false) then
      some (3 + ((s.drop 3).takeWhile isWordChar).length + 1)
    else
      match s.drop 3 with
      | [] => some 3
      | '\n' :: _ => some 3
      | _ => none
  else none

/-- Scanner of the `re.sub` above: matched spans are deleted (the Nat counts
characters of the current match still to delete), unmatched characters are
kept; the Bool tracks the `^`-anchor state of the current position. -/
def reSubFenceGo : Nat → Bool → Str → Str
  | _, _, [] => []
  | Nat.succ k, _, c :: rest => reSubFenceGo k (c = '\n') rest
  | 0, atLS, c :: rest =>
    match fenceSubMatch atLS (c :: rest) with
    | some n => reSubFenceGo (n - 1) (c = '\n') rest
    | none => c :: reSubFenceGo 0 (c = '\n') rest

/-- `re.sub(r'^```\w*\n|```$', '', file_content, flags=re.MULTILINE)` of the
fallback pass: strip residual fence markers from a content block. -/
def reSubFence (s : Str) : Str := reSubFenceGo 0 true s

/-- `parse_claude_response` of `backend/v0-clone-backend.py`: the primary
fenced-block pass; if and only if it produced zero files, the fallback
`File:`-marker pass runs instead. -/
def parse_claude_response (content : Str) : List (Str × Str) :=
  if fencedPass content = [] then
    (findMarkers content).foldl
      (fun fs m => dictInsert fs (pyStrip m.1) (reSubFence (pyStrip m.2))) []
  else fencedPass content

/-- A function call carried by an ADK event part. -/
structure AdkFunctionCall where
  name : Str
  args : Str
deriving DecidableEq

/-- A function response carried by an ADK event part. -/
structure AdkFunctionResponse where
  name : Str
  response : Str
deriving DecidableEq

/-- One part of an ADK event content. -/
structure AdkPart where
  text : Option Str
  function_call : Option AdkFunctionCall
  function_response : Option AdkFunctionResponse
deriving DecidableEq

/-- Content of an ADK event. -/
structure AdkContent where
  parts : List AdkPart
deriving DecidableEq

/-- A raw ADK event as consumed by `process_agent_event`; `is_final` models
`event.is_final_response()`. -/
structure AdkEvent where
  author : Str
  content : Option AdkContent
  is_final : Bool
deriving DecidableEq

/-- Normalized event dictionary produced by `process_agent_event`. -/
inductive ProcessedEvent where
  | agent_response (author : Str) (content : Str) (final : Bool)
  | tool_call (tool : Str) (args : Str)
  | tool_response (tool : Str) (response : Str)
deriving DecidableEq

/-- `''.join(part.text or '' for part in parts if part.text)`. -/
def joinTexts (parts : List AdkPart) : Str :=
  parts.foldr
    (fun p acc =>
      match p.text with
      | some t => if t = [] then acc else t ++ acc
      | none => acc) []

/-- The tool-handling loop of `process_agent_event`: scan the parts in
order; within each part a function call is checked before a function
response; the first part carrying either decides the result. -/
def firstToolEvent : List AdkPart → Option ProcessedEvent
  | [] => none
  | p :: rest =>
    match p.function_call with
    | some fc => some (.tool_call fc.name fc.args)
    | none =>
      match p.function_response with
      | some fr => some (.tool_response fr.name fr.response)
      | none => firstToolEvent rest

/-- `process_agent_event` of `backend/services/agent_service.py`: convert an
ADK event to at most one normalized event. -/
def process_agent_event (e : AdkEvent) : Option ProcessedEvent :=
  match e.content with
  | none => none
  | some c =>
    if e.is_final && !(c.parts = []) && !(joinTexts c.parts = []) then
      some (.agent_response e.author (joinTexts c.parts) true)
    else if !(c.parts = []) && !(joinTexts c.parts = []) then
      some (.agent_response e.author (joinTexts c.parts) false)
    else firstToolEvent c.parts

/-- Canonical wire events of the streaming pipeline, tagged as in the JSON
objects emitted by the source (`session_created`, `agent_event`,
`file_start`, `content`, `file_end`, `complete`, `error`). -/
inductive OutEvent where
  | sessionCreated (session_id : Str)
  | agentEvent (phase : Str) (data : ProcessedEvent)
  | fileStart (file_path : Str) (size : Nat)
  | contentChunk (file_path : Str) (chunk : Str)
  | fileEnd (file_path : Str)
  | complete (session_id : Str) (total_files : Nat)
  | error (message : Str)
deriving DecidableEq

/-- The chunking loop `for i in range(0, len(content), chunk_size)` with
`chunk_size = 100`: the consecutive 100-character slices of a string. -/
def chunks100 (s : Str) : List Str :=
  (List.range ((s.length + 99) / 100)).map (fun i => (s.drop (100 * i)).take 100)

/-- The per-file streaming sequence: `file_start` with the content length as
size, one `content` event per 100-character slice, then `file_end`. -/
def streamFilePair (path content : Str) : List OutEvent :=
  .fileStart path content.length ::
    ((chunks100 content).map (fun ch => .contentChunk path ch) ++ [.fileEnd path])

/-- One entry of the `generated_code["files"]` list in the session state:
`file_data.get("path", "unknown.js")` and `file_data.get("content", "")`. -/
structure FileData where
  path : Option Str
  content : Option Str
deriving DecidableEq

/-- Effective path of a state-bag file entry. -/
def FileData.pathD (fd : FileData) : Str := fd.path.getD (lit "unknown.js")

/-- Effective content of a state-bag file entry. -/
def FileData.contentD (fd : FileData) : Str := fd.content.getD []

/-- The structured output deposited in the session state under the key
`generated_code` (after Pydantic-to-dict conversion). -/
structure GeneratedCode where
  files : List FileData
deriving DecidableEq

/-- Streaming of one state-bag file entry by `generate_code_with_adk`. -/
def streamOneFile (fd : FileData) : List OutEvent :=
  streamFilePair fd.pathD fd.contentD

/-- Output-extraction phase of `generate_code_with_adk` in
`backend/main.py`: after the agent workflow ends, only the session state is
consulted; a structured output with a non-empty `files` list is streamed
file by file followed by `complete`; an empty `files` list yields the
`No files were generated` error; a missing (or non-dict) structured output
yields the `Code generation did not complete` error.  The final-message
text of the run is never consulted and `parse_code_from_response` is never
invoked here. -/
def extractAndStream (session_id : Str) (generated_code : Option GeneratedCode) :
    List OutEvent :=
  match generated_code with
  | some gc =>
    if !(gc.files = []) then
      (gc.files.map streamOneFile).flatten ++ [.complete session_id gc.files.length]
    else [.error (lit "No files were generated. Please try again.")]
  | none => [.error (lit "Code generation did not complete. Please try again.")]

/-- Content field of a processed event, `processed.get("content", "")`. -/
def processedContent : ProcessedEvent → Str
  | .agent_response _ c _ => c
  | _ => []

/-- Phase-tracking heuristic of `generate_code_with_adk`: substring search
on the lower-cased content of the processed event; no transition
otherwise. -/
def nextPhase (current : Str) (pe : ProcessedEvent) : Str :=
  if isSubstr (lit "planning") (lowerStr (processedContent pe)) then lit "planning"
  else if isSubstr (lit "generat") (lowerStr (processedContent pe)) then lit "generating"
  else if isSubstr (lit "review") (lowerStr (processedContent pe)) then lit "reviewing"
  else current

/-- One iteration of the agent-event loop of `generate_code_with_adk`: a
raw event that normalizes to nothing leaves the state unchanged; otherwise
the phase is updated and an `agent_event` carrying the new phase is
appended. -/
def agentStep (acc : Str × List OutEvent) (ev : AdkEvent) : Str × List OutEvent :=
  match process_agent_event ev with
  | none => acc
  | some pe => (nextPhase acc.1 pe, acc.2 ++ [.agentEvent (nextPhase acc.1 pe) pe])

/-- The agent-event loop of `generate_code_with_adk`: each raw event is
normalized; skipped events produce nothing; surviving events are emitted as
`agent_event` objects carrying the current phase. -/
def agentLoop (rawEvents : List AdkEvent) : Str × List OutEvent :=
  rawEvents.foldl agentStep (lit "initializing", [])

/-- The canonical event sequence of one `generate_code_with_adk` run that
reaches the extraction phase: `session_created`, the normalized agent
events, then the extraction output. -/
def generateRun (session_id : Str) (rawEvents : List AdkEvent)
    (generated_code : Option GeneratedCode) : List OutEvent :=
  .sessionCreated session_id :: (agentLoop rawEvents).2
    ++ extractAndStream session_id generated_code

/-- The concatenated `isFinal=true` agent-message text of a run (the input
the specification routes to the File Extractor as the fallback source). -/
def concatFinalTexts (rawEvents : List AdkEvent) : Str :=
  rawEvents.foldr
    (fun ev acc =>
      match process_agent_event ev with
      | some (.agent_response _ t true) => t ++ acc
      | _ => acc) []

/-- Error classification of `generate_code_stream` in
`backend/v0-clone-backend.py`: substring match on the lower-cased failure
description, in source order; anything else is wrapped generically. -/
def classify_error (error_message : Str) : Str :=
  if isSubstr (lit "rate_limit") (lowerStr error_message) then
    lit "Rate limit exceeded. Please wait a moment and try again."
  else if isSubstr (lit "authentication") (lowerStr error_message)
      || isSubstr (lit "api_key") (lowerStr error_message) then
    lit "Invalid API key. Please check your ANTHROPIC_API_KEY in .env file."
  else if isSubstr (lit "not_found") (lowerStr error_message) then
    lit "Model not found. The specified Claude model may not be available with your API key."
  else if isSubstr (lit "overloaded") (lowerStr error_message) then
    lit "Claude API is currently overloaded. Please try again in a moment."
  else
    lit "Error generating code: " ++ error_message

/-- A `generate_code_stream` run that raises mid-stream: the events emitted
before the failure are followed by the single classified error event of the
`except` handler, after which the generator returns (no further events). -/
def v0RunWithFailure (emitted : List OutEvent) (error_message : Str) : List OutEvent :=
  emitted ++ [.error (classify_error error_message)]

/-- Is the event a terminal (`complete` or `error`) event. -/
def isTerminalEv : OutEvent → Bool
  | .complete _ _ => true
  | .error _ => true
  | _ => false

/-- Is the event an `error` event. -/
def isErrorEv : OutEvent → Bool
  | .error _ => true
  | _ => false

/-- The file path an event is about, if it is a per-file event. -/
def pathOf : OutEvent → Option Str
  | .fileStart p _ => some p
  | .contentChunk p _ => some p
  | .fileEnd p => some p
  | _ => none

/-- Is the event a `file_start` for path `p`. -/
def isStartOf (p : Str) : OutEvent → Bool
  | .fileStart q _ => q = p
  | _ => false

/-- Is the event a `file_end` for path `p`. -/
def isEndOf (p : Str) : OutEvent → Bool
  | .fileEnd q => q = p
  | _ => false

/-- Does the event mention an `error` message containing `pat`. -/
def isErrorContaining (pat : Str) : OutEvent → Bool
  | .error m => isSubstr pat m
  | _ => false

/-- Projection of an event sequence to the events about path `p`. -/
def projP (p : Str) (es : List OutEvent) : List OutEvent :=
  es.filter (fun e => pathOf e = some p)

/-- The stream invariant claimed for canonical event sequences: a
`file_end` for `p` is preceded by a `file_start` for `p`; no content chunk
for `p` follows the `file_end` for `p`; a started path is ended exactly
once; terminal events occur exactly at the last position, and the last
event is terminal. -/
def streamInvariant (es : List OutEvent) : Prop :=
  (∀ p l1 l2, es = l1 ++ .fileEnd p :: l2 → l1.any (isStartOf p) = true) ∧
  (∀ p l1 l2, es = l1 ++ .fileEnd p :: l2 → ∀ ch, OutEvent.contentChunk p ch ∉ l2) ∧
  (∀ p, es.any (isStartOf p) = true → es.countP (isEndOf p) = 1) ∧
  (∀ l1 e l2, es = l1 ++ e :: l2 → isTerminalEv e = true → l2 = []) ∧
  (∃ e, es.getLast? = some e ∧ isTerminalEv e = true)

/-- A persisted ADK session: identifier, owner, application, state bag and
event history. -/
structure AdkSession where
  id : Str
  user_id : Str
  app_name : Str
  state : List (Str × Str)
  events : List Str
deriving DecidableEq

/-- Modelled from the spec: the external ADK `DatabaseSessionService` (not
part of this repository) is a durable mapping from (user, session id) to
sessions; `lookup_raises` models a `get_session` call failing with an
exception, and `fresh` is the identifier the service generates for a
session created without an explicit id. -/
structure SessionService where
  sessions : List AdkSession
  fresh : Str
  lookup_raises : Str → Str → Bool

/-- Modelled from the spec: `session_service.get_session` either raises or
returns the stored session for (user, id), if any. -/
def svcGetSession (svc : SessionService) (user_id session_id : Str) :
    Except Unit (Option AdkSession) :=
  if svc.lookup_raises user_id session_id then Except.error ()
  else Except.ok (svc.sessions.find? (fun s => s.user_id = user_id && s.id = session_id))

/-- Modelled from the spec: `session_service.create_session` persists a new
empty session before returning it; without an explicit id the service
generates a fresh one. -/
def svcCreateSession (svc : SessionService) (app_name user_id : Str)
    (session_id : Option Str) : SessionService × AdkSession :=
  let s : AdkSession := ⟨session_id.getD svc.fresh, user_id, app_name, [], []⟩
  (⟨svc.sessions ++ [s], svc.fresh, svc.lookup_raises⟩, s)

/-- `get_user_session` of `backend/services/agent_service.py`: with a
(truthy) session id, try the lookup and return the stored session on
success; on an exception or a missing record fall through to creation with
the same id; without a session id create directly. -/
def get_user_session (svc : SessionService) (user_id : Str)
    (session_id : Option Str) (app_name : Str) : SessionService × AdkSession :=
  if session_id.getD [] ≠ [] then
    match svcGetSession svc user_id (session_id.getD []) with
    | Except.ok (some s) => (svc, s)
    | Except.ok none => svcCreateSession svc app_name user_id session_id
    | Except.error _ => svcCreateSession svc app_name user_id session_id
  else svcCreateSession svc app_name user_id session_id

/-- Python list slice `l[a:b]` for non-negative bounds. -/
def pySliceNat (l : List AdkSession) (a b : Nat) : List AdkSession :=
  (l.take b).drop a

/-- Result object of `list_user_sessions`. -/
structure SessionListResult where
  sessions : List AdkSession
  total : Nat
  page : Nat
  page_size : Nat
deriving DecidableEq

/-- `list_user_sessions` of `backend/services/agent_service.py`: the source
initializes `sessions = []` and never fetches the stored sessions, so the
returned slice and total are computed from that empty list regardless of
the user's actual collection. -/
def list_user_sessions (user_id : Str) (page page_size : Nat) : SessionListResult :=
  ⟨pySliceNat ([] : List AdkSession) ((page - 1) * page_size) (page * page_size),
   ([] : List AdkSession).length, page, page_size⟩

/-- Modelled from the spec: the Session Store `list` contract of §4.1,
slicing `[(page-1)*pageSize : page*pageSize]` of the user's full ordered
collection and returning it with the total count. -/
def listSpec (collection : List AdkSession) (page page_size : Nat) :
    List AdkSession × Nat :=
  (pySliceNat collection ((page - 1) * page_size) (page * page_size), collection.length)

theorem chunks100_nil : chunks100 [] = [] := rfl

theorem chunks100_eq_nil_iff (s : Str) : chunks100 s = [] ↔ s = [] := by
  constructor
  · intro h
    cases s with
    | nil => rfl
    | cons c rest =>
      exfalso
      have h1 : 1 ≤ ((c :: rest).length + 99) / 100 := by
        apply (Nat.one_le_div_iff (by omega)).mpr
        simp
      simp only [chunks100, List.map_eq_nil_iff, List.range_eq_nil] at h
      omega
  · intro h
    subst h
    rfl

theorem chunks100_cons (s : Str) (h : s ≠ []) :
    chunks100 s = s.take 100 :: chunks100 (s.drop 100) := by
  have hlen : 1 ≤ s.length := List.length_pos.mpr h
  have hceil : (s.length + 99) / 100 = ((s.drop 100).length + 99) / 100 + 1 := by
    rw [List.length_drop]
    by_cases h100 : 100 ≤ s.length
    · have e1 : s.length + 99 = (s.length - 100 + 99) + 100 := by omega
      rw [e1, Nat.add_div_right _ (by omega)]
    · have e1 : (s.length + 99) / 100 = 1 := by
        apply Nat.div_eq_of_lt_le <;> omega
      have e2 : s.length - 100 + 99 < 100 := by omega
      rw [e1, Nat.div_eq_of_lt e2]
  unfold chunks100
  rw [hceil, List.range_succ_eq_map]
  simp only [List.map_cons, List.map_map, Nat.mul_zero, List.drop_zero]
  congr 1
  apply List.map_congr_left
  intro i _
  simp only [Function.comp_apply]
  rw [List.drop_drop]
  congr 2
  omega

theorem chunks100_flatten (s : Str) : (chunks100 s).flatten = s := by
  suffices H : ∀ (n : Nat) (t : Str), t.length ≤ n → (chunks100 t).flatten = t by
    exact H s.length s le_rfl
  intro n
  induction n with
  | zero =>
    intro t ht
    have : t = [] := List.length_eq_zero.mp (by omega)
    subst this
    rfl
  | succ m ih =>
    intro t ht
    by_cases hte : t = []
    · subst hte; rfl
    · rw [chunks100_cons t hte, List.flatten_cons,
        ih (t.drop 100) (by rw [List.length_drop]; have := List.length_pos.mpr hte; omega),
        List.take_append_drop]

theorem chunks100_length_le (s : Str) : ∀ ch ∈ chunks100 s, ch.length ≤ 100 := by
  intro ch hch
  unfold chunks100 at hch
  obtain ⟨i, _, hi⟩ := List.mem_map.mp hch
  rw [← hi, List.length_take]
  omega

theorem chunks100_dropLast_length (s : Str) :
    ∀ ch ∈ (chunks100 s).dropLast, ch.length = 100 := by
  intro ch hch
  unfold chunks100 at hch
  rw [← List.map_dropLast] at hch
  obtain ⟨i, hi, hieq⟩ := List.mem_map.mp hch
  have hbound : i < ((s.length + 99) / 100) - 1 := by
    rcases Nat.eq_zero_or_pos ((s.length + 99) / 100) with hz | hp
    · rw [hz] at hi; simp at hi
    · obtain ⟨m, hm⟩ := Nat.exists_eq_add_of_le hp
      rw [hm] at hi
      rw [show 1 + m = m + 1 by omega, List.range_succ, List.dropLast_concat] at hi
      have := List.mem_range.mp hi
      omega
  have hmul : ((s.length + 99) / 100) * 100 ≤ s.length + 99 := Nat.div_mul_le_self _ _
  rw [← hieq, List.length_take, List.length_drop]
  omega

theorem streamFilePair_path (p c : Str) :
    ∀ e ∈ streamFilePair p c, pathOf e = some p := by
  intro e he
  rcases List.mem_cons.mp he with h | he2
  · subst h; rfl
  · rcases List.mem_append.mp he2 with hm | hm
    · obtain ⟨ch, _, hch⟩ := List.mem_map.mp hm
      subst hch; rfl
    · have h := List.mem_singleton.mp hm
      subst h; rfl

theorem streamFilePair_nonterminal (p c : Str) :
    ∀ e ∈ streamFilePair p c, isTerminalEv e = false := by
  intro e he
  rcases List.mem_cons.mp he with h | he2
  · subst h; rfl
  · rcases List.mem_append.mp he2 with hm | hm
    · obtain ⟨ch, _, hch⟩ := List.mem_map.mp hm
      subst hch; rfl
    · have h := List.mem_singleton.mp hm
      subst h; rfl

theorem projP_streamFilePair_self (p c : Str) :
    projP p (streamFilePair p c) = streamFilePair p c := by
  apply List.filter_eq_self.mpr
  intro e he
  simp [streamFilePair_path p c e he]

theorem projP_streamFilePair_other (q p c : Str) (h : q ≠ p) :
    projP q (streamFilePair p c) = [] := by
  apply List.filter_eq_nil_iff.mpr
  intro e he
  simp only [streamFilePair_path p c e he, Option.some_inj, decide_eq_true_eq]
  exact fun hh => h hh.symm

theorem projP_append (p : Str) (l1 l2 : List OutEvent) :
    projP p (l1 ++ l2) = projP p l1 ++ projP p l2 :=
  List.filter_append l1 l2

theorem streamFilePair_countP_end (p c : Str) :
    (streamFilePair p c).countP (isEndOf p) = 1 := by
  simp only [streamFilePair, List.countP_cons, List.countP_append]
  have h1 : (isEndOf p (OutEvent.fileStart p c.length)) = false := rfl
  have h2 : ((chunks100 c).map (fun ch => OutEvent.contentChunk p ch)).countP (isEndOf p) = 0 := by
    apply List.countP_eq_zero.mpr
    intro e he
    obtain ⟨ch, _, hch⟩ := List.mem_map.mp he
    subst hch
    simp [isEndOf]
  rw [h2]
  simp [h1, isEndOf, List.countP_cons]

theorem fileEnd_not_mem_front (p c : Str) :
    OutEvent.fileEnd p ∉
      (OutEvent.fileStart p c.length :: (chunks100 c).map (fun ch => OutEvent.contentChunk p ch)) := by
  intro h
  rcases List.mem_cons.mp h with h | h
  · exact OutEvent.noConfusion h
  · obtain ⟨ch, _, hch⟩ := List.mem_map.mp h
    exact OutEvent.noConfusion hch

theorem append_singleton_eq_append_cons {α : Type} [DecidableEq α]
    (l A B : List α) (x : α) (heq : l ++ [x] = A ++ x :: B) (hx : x ∉ l) : B = [] := by
  by_contra hB
  have hlast1 : (l ++ [x]).getLast? = some x := by simp
  have hlast2 : (A ++ x :: B).getLast? = B.getLast? := by
    rw [List.getLast?_append_of_ne_nil A (by simp : x :: B ≠ []),
      show x :: B = [x] ++ B from rfl, List.getLast?_append_of_ne_nil [x] hB]
  have hxB : x ∈ B := by
    have : B.getLast? = some x := by rw [← hlast2, ← heq, hlast1]
    exact List.mem_of_mem_getLast? this
  have hcount : (l ++ [x]).count x = l.count x + 1 := by
    simp [List.count_append]
  have hcount2 : (A ++ x :: B).count x = A.count x + 1 + B.count x := by
    simp [List.count_append, List.count_cons]
    omega
  have hcx : l.count x = 0 := List.count_eq_zero.mpr hx
  have hcB : 1 ≤ B.count x := List.count_pos_iff.mpr hxB
  rw [heq] at hcount
  omega

theorem terminal_only_last {A : List OutEvent} {t : OutEvent}
    (hA : ∀ e ∈ A, isTerminalEv e = false) (ht : isTerminalEv t = true) :
    ∀ l1 e l2, A ++ [t] = l1 ++ e :: l2 → isTerminalEv e = true → l2 = [] := by
  intro l1 e l2 heq hterm
  by_contra hB
  have hcount1 : (A ++ [t]).countP isTerminalEv = 1 := by
    rw [List.countP_append, List.countP_eq_zero.mpr (by simpa using hA)]
    simp [ht]
  have hlastA : (A ++ [t]).getLast? = some t := by simp
  have hlast2 : (l1 ++ e :: l2).getLast? = l2.getLast? := by
    rw [List.getLast?_append_of_ne_nil l1 (by simp : e :: l2 ≠ []),
      show e :: l2 = [e] ++ l2 from rfl, List.getLast?_append_of_ne_nil [e] hB]
  have htl2 : t ∈ l2 := by
    apply List.mem_of_mem_getLast?
    rw [← hlast2, ← heq, hlastA]
    exact rfl
  have hcB : 1 ≤ l2.countP isTerminalEv :=
    List.countP_pos_iff.mpr ⟨t, htl2, ht⟩
  have hcount2 : (l1 ++ e :: l2).countP isTerminalEv =
      l1.countP isTerminalEv + (1 + l2.countP isTerminalEv) := by
    simp [List.countP_append, List.countP_cons, hterm]
    omega
  rw [heq, hcount2] at hcount1
  omega

/-- The per-file streaming of a list of (path, content) pairs. -/
def filesStream (files : List (Str × Str)) : List OutEvent :=
  (files.map (fun pc => streamFilePair pc.1 pc.2)).flatten

/-- The (path, content) pairs effectively streamed for a state-bag output. -/
def filesOfGC : Option GeneratedCode → List (Str × Str)
  | some gc => gc.files.map (fun fd => (fd.pathD, fd.contentD))
  | none => []

theorem streamOneFile_eq (fd : FileData) :
    streamOneFile fd = streamFilePair fd.pathD fd.contentD := rfl

theorem filesStream_of_gc (gc : GeneratedCode) :
    (gc.files.map streamOneFile).flatten = filesStream (filesOfGC (some gc)) := by
  simp [filesStream, filesOfGC, List.map_map]
  rfl

theorem mem_projP_iff (p : Str) (l : List OutEvent) (e : OutEvent) :
    e ∈ projP p l ↔ e ∈ l ∧ pathOf e = some p := by
  simp [projP, List.mem_filter]

theorem projP_eq_nil_of_none (p : Str) (l : List OutEvent)
    (h : ∀ e ∈ l, pathOf e = none) : projP p l = [] := by
  apply List.filter_eq_nil_iff.mpr
  intro e he
  simp [h e he]

theorem isStartOf_true_iff (p : Str) (e : OutEvent) :
    isStartOf p e = true ↔ ∃ n, e = OutEvent.fileStart p n := by
  cases e with
  | fileStart q n =>
    constructor
    · intro h
      have hqp : q = p := by simpa [isStartOf] using h
      subst hqp
      exact ⟨n, rfl⟩
    · rintro ⟨m, hm⟩
      injection hm with h1 h2
      simp [isStartOf, h1]
  | sessionCreated sid => simp [isStartOf]
  | agentEvent ph pe => simp [isStartOf]
  | contentChunk q ch => simp [isStartOf]
  | fileEnd q => simp [isStartOf]
  | complete sid n => simp [isStartOf]
  | error m => simp [isStartOf]

theorem isEndOf_true_path (p : Str) (e : OutEvent) (h : isEndOf p e = true) :
    pathOf e = some p := by
  cases e <;> simp [isEndOf] at h <;> simp [pathOf, h]

theorem filesStream_nonterminal (files : List (Str × Str)) :
    ∀ e ∈ filesStream files, isTerminalEv e = false := by
  intro e he
  obtain ⟨l, hl, hel⟩ := List.mem_flatten.mp he
  obtain ⟨pc, _, hpc⟩ := List.mem_map.mp hl
  subst hpc
  exact streamFilePair_nonterminal pc.1 pc.2 e hel

theorem projP_filesStream (files : List (Str × Str))
    (hnd : (files.map Prod.fst).Nodup) (p : Str) :
    (projP p (filesStream files) = [] ∧ p ∉ files.map Prod.fst) ∨
    (∃ c, (p, c) ∈ files ∧ projP p (filesStream files) = streamFilePair p c) := by
  induction files with
  | nil => exact Or.inl ⟨rfl, by simp⟩
  | cons pc fs ih =>
    have hnd2 : (fs.map Prod.fst).Nodup := (List.nodup_cons.mp hnd).2
    have hhead : pc.1 ∉ fs.map Prod.fst := (List.nodup_cons.mp hnd).1
    have hsplit : filesStream (pc :: fs) = streamFilePair pc.1 pc.2 ++ filesStream fs := by
      simp [filesStream]
    by_cases hp : p = pc.1
    · subst hp
      rcases ih hnd2 with ⟨hnil, _⟩ | ⟨c, hc, _⟩
      · refine Or.inr ⟨pc.2, List.mem_cons.mpr (Or.inl ?_), ?_⟩
        · exact Prod.ext rfl rfl
        · rw [hsplit, projP_append, hnil, projP_streamFilePair_self, List.append_nil]
      · exfalso
        exact hhead (List.mem_map.mpr ⟨(pc.1, c), hc, rfl⟩)
    · rcases ih hnd2 with ⟨hnil, hnm⟩ | ⟨c, hc, heq⟩
      · refine Or.inl ⟨?_, ?_⟩
        · rw [hsplit, projP_append, hnil, projP_streamFilePair_other p pc.1 pc.2 hp]
          rfl
        · simp only [List.map_cons, List.mem_cons]
          rintro (h | h)
          · exact hp h
          · exact hnm h
      · refine Or.inr ⟨c, List.mem_cons_of_mem _ hc, ?_⟩
        rw [hsplit, projP_append, projP_streamFilePair_other p pc.1 pc.2 hp, heq,
          List.nil_append]

theorem runShape_invariant (pre : List OutEvent) (files : List (Str × Str)) (t : OutEvent)
    (hpre : ∀ e ∈ pre, pathOf e = none ∧ isTerminalEv e = false)
    (hnd : (files.map Prod.fst).Nodup)
    (ht : isTerminalEv t = true) (htp : pathOf t = none) :
    streamInvariant (pre ++ filesStream files ++ [t]) := by
  have hprojall : ∀ p, projP p (pre ++ filesStream files ++ [t]) =
      projP p (filesStream files) := by
    intro p
    rw [projP_append, projP_append,
      projP_eq_nil_of_none p pre (fun e he => (hpre e he).1),
      projP_eq_nil_of_none p [t] (by intro e he; rw [List.mem_singleton.mp he]; exact htp)]
    simp
  have hcons : ∀ p (l2 : List OutEvent), projP p (OutEvent.fileEnd p :: l2) =
      OutEvent.fileEnd p :: projP p l2 := by
    intro p l2
    simp [projP, List.filter_cons, pathOf]
  have hproj_of_end : ∀ p l1 l2,
      pre ++ filesStream files ++ [t] = l1 ++ OutEvent.fileEnd p :: l2 →
      ∃ c, (p, c) ∈ files ∧
        streamFilePair p c = projP p l1 ++ OutEvent.fileEnd p :: projP p l2 := by
    intro p l1 l2 hdec
    have hmem : OutEvent.fileEnd p ∈ pre ++ filesStream files ++ [t] := by
      rw [hdec]; simp
    have hin : OutEvent.fileEnd p ∈ projP p (pre ++ filesStream files ++ [t]) :=
      (mem_projP_iff _ _ _).mpr ⟨hmem, rfl⟩
    rcases projP_filesStream files hnd p with ⟨hnil, _⟩ | ⟨c, hc, heq⟩
    · rw [hprojall, hnil] at hin
      exact absurd hin (List.not_mem_nil _)
    · refine ⟨c, hc, ?_⟩
      have h2 : projP p (pre ++ filesStream files ++ [t]) = streamFilePair p c := by
        rw [hprojall]; exact heq
      rw [hdec, projP_append, hcons] at h2
      exact h2.symm
  refine ⟨?_, ?_, ?_, ?_, ?_⟩
  · intro p l1 l2 hdec
    obtain ⟨c, _, hsfp⟩ := hproj_of_end p l1 l2 hdec
    cases hl1 : projP p l1 with
    | nil =>
      rw [hl1, List.nil_append] at hsfp
      simp [streamFilePair] at hsfp
    | cons x xs =>
      rw [hl1, List.cons_append] at hsfp
      have hx : OutEvent.fileStart p c.length = x := by
        have := hsfp
        simp only [streamFilePair, List.cons.injEq] at this
        exact this.1
      have hxl1 : x ∈ l1 := by
        have hx2 : x ∈ projP p l1 := by
          rw [hl1]
          exact List.mem_cons_self x xs
        exact List.mem_of_mem_filter hx2
      apply List.any_eq_true.mpr
      exact ⟨x, hxl1, by rw [← hx]; simp [isStartOf]⟩
  · intro p l1 l2 hdec ch hmem
    obtain ⟨c, _, hsfp⟩ := hproj_of_end p l1 l2 hdec
    have hform : (OutEvent.fileStart p c.length ::
        (chunks100 c).map (fun ch => OutEvent.contentChunk p ch)) ++ [OutEvent.fileEnd p] =
        projP p l1 ++ OutEvent.fileEnd p :: projP p l2 := by
      rw [← hsfp]
      simp [streamFilePair]
    have hnil2 : projP p l2 = [] :=
      append_singleton_eq_append_cons _ _ _ _ hform (fileEnd_not_mem_front p c)
    have hch : OutEvent.contentChunk p ch ∈ projP p l2 :=
      (mem_projP_iff _ _ _).mpr ⟨hmem, rfl⟩
    rw [hnil2] at hch
    exact absurd hch (List.not_mem_nil _)
  · intro p hany
    obtain ⟨e, hmem, hse⟩ := List.any_eq_true.mp hany
    obtain ⟨n, hn⟩ := (isStartOf_true_iff p e).mp hse
    subst hn
    have hin : OutEvent.fileStart p n ∈ projP p (pre ++ filesStream files ++ [t]) :=
      (mem_projP_iff _ _ _).mpr ⟨hmem, rfl⟩
    rcases projP_filesStream files hnd p with ⟨hnil, _⟩ | ⟨c, _, heq⟩
    · rw [hprojall, hnil] at hin
      exact absurd hin (List.not_mem_nil _)
    · have hcount : (pre ++ filesStream files ++ [t]).countP (isEndOf p) =
          (projP p (pre ++ filesStream files ++ [t])).countP (isEndOf p) := by
        rw [projP, List.countP_filter]
        apply List.countP_congr
        intro e _
        by_cases he : isEndOf p e = true
        · simp [he, isEndOf_true_path p e he]
        · simp [Bool.eq_false_iff.mpr he]
      rw [hcount, hprojall, heq, streamFilePair_countP_end]
  · intro l1 e l2 hdec hterm
    have hA : ∀ x ∈ pre ++ filesStream files, isTerminalEv x = false := by
      intro x hx
      rcases List.mem_append.mp hx with h | h
      · exact (hpre x h).2
      · exact filesStream_nonterminal files x h
    exact terminal_only_last hA ht l1 e l2 (by rw [← hdec]) hterm
  · exact ⟨t, by simp, ht⟩

theorem agentStep_preserve (P : OutEvent → Prop)
    (hP : ∀ ph pe, P (OutEvent.agentEvent ph pe)) :
    ∀ st ev, (∀ e ∈ st.2, P e) → ∀ e ∈ (agentStep st ev).2, P e := by
  intro st ev hst e he
  unfold agentStep at he
  cases hpe : process_agent_event ev with
  | none => rw [hpe] at he; exact hst e he
  | some pe =>
    rw [hpe] at he
    rcases List.mem_append.mp he with h | h
    · exact hst e h
    · rw [List.mem_singleton.mp h]
      exact hP _ _

theorem foldl_preserve {α β : Type} (P : α → Prop) (f : α → β → α)
    (h : ∀ a b, P a → P (f a b)) : ∀ (l : List β) (a : α), P a → P (l.foldl f a) := by
  intro l
  induction l with
  | nil => intro a ha; exact ha
  | cons b bs ih => intro a ha; exact ih (f a b) (h a b ha)

theorem agentLoop_events (raw : List AdkEvent) :
    ∀ e ∈ (agentLoop raw).2, pathOf e = none ∧ isTerminalEv e = false := by
  have := foldl_preserve
    (fun st : Str × List OutEvent => ∀ e ∈ st.2, pathOf e = none ∧ isTerminalEv e = false)
    agentStep
    (fun st ev hst => agentStep_preserve _ (fun ph pe => ⟨rfl, rfl⟩) st ev hst)
    raw (lit "initializing", []) (by intro e he; exact absurd he (List.not_mem_nil e))
  exact this

theorem dictInsert_keys_nodup (fs : List (Str × Str)) (k v : Str)
    (h : (fs.map Prod.fst).Nodup) : ((dictInsert fs k v).map Prod.fst).Nodup := by
  unfold dictInsert
  by_cases hany : fs.any (fun p => p.1 = k) = true
  · rw [if_pos hany]
    have : (fs.map (fun p => if p.1 = k then (k, v) else p)).map Prod.fst = fs.map Prod.fst := by
      rw [List.map_map]
      apply List.map_congr_left
      intro p _
      by_cases hk : p.1 = k
      · simp [hk]
      · simp [hk]
    rw [this]
    exact h
  · rw [if_neg hany]
    have hk : k ∉ fs.map Prod.fst := by
      intro hmem
      obtain ⟨p, hp, hpk⟩ := List.mem_map.mp hmem
      exact hany (List.any_eq_true.mpr ⟨p, hp, by simp [hpk]⟩)
    rw [List.map_append]
    apply List.Nodup.append h (List.nodup_singleton k)
    intro a ha hb
    rw [List.mem_singleton.mp hb] at ha
    exact hk ha

theorem fencedPass_keys_nodup (content : Str) :
    ((fencedPass content).map Prod.fst).Nodup := by
  unfold fencedPass
  apply foldl_preserve (fun fs : List (Str × Str) => (fs.map Prod.fst).Nodup)
  · intro fs m h
    exact dictInsert_keys_nodup fs _ _ h
  · exact List.nodup_nil

theorem parse_claude_response_keys_nodup (content : Str) :
    ((parse_claude_response content).map Prod.fst).Nodup := by
  unfold parse_claude_response
  by_cases h : fencedPass content = []
  · rw [if_pos h]
    apply foldl_preserve (fun fs : List (Str × Str) => (fs.map Prod.fst).Nodup)
    · intro fs m hh
      exact dictInsert_keys_nodup fs _ _ hh
    · exact List.nodup_nil
  · rw [if_neg h]
    exact fencedPass_keys_nodup content

theorem generateRun_invariant (session_id : Str) (raw : List AdkEvent)
    (gc : Option GeneratedCode)
    (hnd : ((filesOfGC gc).map Prod.fst).Nodup) :
    streamInvariant (generateRun session_id raw gc) := by
  have hpre : ∀ e ∈ OutEvent.sessionCreated session_id :: (agentLoop raw).2,
      pathOf e = none ∧ isTerminalEv e = false := by
    intro e he
    rcases List.mem_cons.mp he with h | h
    · subst h; exact ⟨rfl, rfl⟩
    · exact agentLoop_events raw e h
  cases gc with
  | none =>
    have hshape : generateRun session_id raw none =
        (OutEvent.sessionCreated session_id :: (agentLoop raw).2) ++ filesStream [] ++
          [OutEvent.error (lit "Code generation did not complete. Please try again.")] := by
      simp [generateRun, extractAndStream, filesStream]
    rw [hshape]
    exact runShape_invariant _ [] _ hpre (by simp) rfl rfl
  | some g =>
    by_cases hfe : g.files = []
    · have hshape : generateRun session_id raw (some g) =
          (OutEvent.sessionCreated session_id :: (agentLoop raw).2) ++ filesStream [] ++
            [OutEvent.error (lit "No files were generated. Please try again.")] := by
        simp [generateRun, extractAndStream, hfe, filesStream]
      rw [hshape]
      exact runShape_invariant _ [] _ hpre (by simp) rfl rfl
    · have hshape : generateRun session_id raw (some g) =
          (OutEvent.sessionCreated session_id :: (agentLoop raw).2) ++
            filesStream (filesOfGC (some g)) ++
            [OutEvent.complete session_id g.files.length] := by
        simp [generateRun, extractAndStream, hfe, filesStream_of_gc]
      rw [hshape]
      exact runShape_invariant _ _ _ hpre hnd rfl rfl

/-- C2, counterexample: the claimed stream invariant fails as stated.  The
state-bag `files` list of `backend/main.py` may repeat a path; with two
entries for `a.js` the run emits a `ContentChunk` for `a.js` after a
`FileEnd` for `a.js`. -/
theorem C2_counterexample :
    ¬ streamInvariant (generateRun (lit "s") []
      (some ⟨[⟨some (lit "a.js"), some (lit "x")⟩, ⟨some (lit "a.js"), some (lit "y")⟩]⟩)) := by
  intro h
  obtain ⟨-, h2, -, -, -⟩ := h
  have hdec : generateRun (lit "s") []
      (some ⟨[⟨some (lit "a.js"), some (lit "x")⟩, ⟨some (lit "a.js"), some (lit "y")⟩]⟩) =
      [OutEvent.sessionCreated (lit "s"), OutEvent.fileStart (lit "a.js") 1,
        OutEvent.contentChunk (lit "a.js") (lit "x")] ++ OutEvent.fileEnd (lit "a.js") ::
      [OutEvent.fileStart (lit "a.js") 1, OutEvent.contentChunk (lit "a.js") (lit "y"),
        OutEvent.fileEnd (lit "a.js"), OutEvent.complete (lit "s") 2] := by
    decide
  exact h2 (lit "a.js") _ _ hdec (lit "y") (by decide)

/-- C2, amended: provided the streamed file paths are pairwise distinct, in
every canonical event sequence of a run a `FileEnd` for `p` is preceded by
its `FileStart`, no `ContentChunk` for `p` follows the `FileEnd` for `p`,
a started path is ended exactly once, and a `Complete` or `Error` event is
exactly the last event of the stream; the File Extractor itself always
yields pairwise-distinct paths (the state-bag files list of
`backend/main.py` is the one source that need not). -/
theorem C2_theorem :
    (∀ session_id raw gc, ((filesOfGC gc).map Prod.fst).Nodup →
      streamInvariant (generateRun session_id raw gc)) ∧
    (∀ content, ((parse_claude_response content).map Prod.fst).Nodup) :=
  ⟨generateRun_invariant, parse_claude_response_keys_nodup⟩

/-- C2, witness: the amended invariant at a concrete one-file run. -/
theorem C2_witness :
    streamInvariant (generateRun (lit "s") []
      (some ⟨[⟨some (lit "a.js"), some (lit "x")⟩]⟩)) :=
  C2_theorem.1 (lit "s") [] (some ⟨[⟨some (lit "a.js"), some (lit "x")⟩]⟩) (by decide)

/-- C3: for every file the encoder emits `FileStart` with the content
length as size hint, then one `ContentChunk` per consecutive 100-character
slice in order, then `FileEnd`; every chunk except possibly the last has
length exactly 100, every chunk has length at most 100, and concatenating
the chunks in emission order reconstructs the content exactly. -/
theorem C3_theorem (path content : Str) :
    streamFilePair path content =
      OutEvent.fileStart path content.length ::
        ((chunks100 content).map (fun ch => OutEvent.contentChunk path ch) ++
          [OutEvent.fileEnd path]) ∧
    (chunks100 content).flatten = content ∧
    (∀ ch ∈ (chunks100 content).dropLast, ch.length = 100) ∧
    (∀ ch ∈ chunks100 content, ch.length ≤ 100) :=
  ⟨rfl, chunks100_flatten content, chunks100_dropLast_length content,
    chunks100_length_le content⟩

/-- C3, witness: the chunking facts at a concrete content. -/
theorem C3_witness :
    (chunks100 (lit "hello")).flatten = lit "hello" ∧ (lit "hello").length ≤ 100 :=
  ⟨(C3_theorem (lit "p") (lit "hello")).2.1,
    (C3_theorem (lit "p") (lit "hello")).2.2.2 (lit "hello") (by decide)⟩

theorem getLast?_run (sid : Str) (raw : List AdkEvent) (tail : List OutEvent)
    (t : OutEvent) (htail : tail.getLast? = some t) :
    (OutEvent.sessionCreated sid :: ((agentLoop raw).2 ++ tail)).getLast? = some t := by
  rw [show OutEvent.sessionCreated sid :: ((agentLoop raw).2 ++ tail) =
    (OutEvent.sessionCreated sid :: (agentLoop raw).2) ++ tail from rfl]
  rw [List.getLast?_append_of_ne_nil _
    (by intro hn; rw [hn] at htail; exact Option.noConfusion htail)]
  exact htail

/-- Does the event sequence contain an `error` whose message contains `pat`. -/
def runHasErrorContaining (pat : Str) (es : List OutEvent) : Bool :=
  es.any (isErrorContaining pat)

/-- Does the event sequence contain a `file_start` for path `p`. -/
def runHasStartFor (p : Str) (es : List OutEvent) : Bool :=
  es.any (isStartOf p)

/-- Transcription of claim C1: the state-bag output is used when present,
with zero files in it yielding a `No files were generated` error; when the
state bag holds no output, the concatenated `isFinal=true` agent-message
text goes to the File Extractor, whose files are streamed, and zero
extracted files again yield the `No files were generated` error. -/
def C1Claim : Prop :=
  ∀ (session_id : Str) (raw : List AdkEvent) (gc : Option GeneratedCode),
    match gc with
    | some g =>
      g.files = [] →
        runHasErrorContaining (lit "No files were generated")
          (generateRun session_id raw gc) = true
    | none =>
      (parse_code_from_response (concatFinalTexts raw) = [] →
        runHasErrorContaining (lit "No files were generated")
          (generateRun session_id raw gc) = true) ∧
      (∀ pc ∈ parse_code_from_response (concatFinalTexts raw),
        runHasStartFor pc.1 (generateRun session_id raw gc) = true)

/-- C1, counterexample: a completed run whose session state holds no
structured output, while the final agent message carries a fenced block the
File Extractor would parse into one file.  `generate_code_with_adk` never
invokes the extractor: it emits the `Code generation did not complete`
error and no `file_start`, refuting the claimed fallback. -/
theorem C1_counterexample : ¬ C1Claim := by
  intro h
  unfold C1Claim at h
  have h0 := h (lit "s")
    [⟨lit "code_generator_agent",
      some ⟨[⟨some (lit "```jsx\nsrc/App.jsx\nx\n```"), none, none⟩]⟩, true⟩] none
  have h2 := h0.2 (lit "src/App.jsx", lit "x") (by decide)
  exact absurd h2 (by decide)

/-- C1, amended: output extraction of `generate_code_with_adk` consults
only the session state bag.  A structured output with a non-empty files
list is streamed file by file and completed; an empty files list yields
exactly the single `No files were generated. Please try again.` error; a
missing structured output yields exactly the single
`Code generation did not complete. Please try again.` error (the final
agent-message text is never passed to the File Extractor); in all cases
the run ends with a terminal event instead of crashing. -/
theorem C1_theorem :
    (∀ session_id g, g.files ≠ [] → extractAndStream session_id (some g) =
      (g.files.map streamOneFile).flatten ++
        [OutEvent.complete session_id g.files.length]) ∧
    (∀ session_id g, g.files = [] → extractAndStream session_id (some g) =
      [OutEvent.error (lit "No files were generated. Please try again.")]) ∧
    (∀ session_id, extractAndStream session_id none =
      [OutEvent.error (lit "Code generation did not complete. Please try again.")]) ∧
    (∀ session_id raw gc, ∃ e, (generateRun session_id raw gc).getLast? = some e ∧
      isTerminalEv e = true) := by
  refine ⟨?_, ?_, ?_, ?_⟩
  · intro sid g h
    simp [extractAndStream, h]
  · intro sid g h
    simp [extractAndStream, h]
  · intro sid
    rfl
  · intro sid raw gc
    cases gc with
    | none =>
      refine ⟨OutEvent.error (lit "Code generation did not complete. Please try again."),
        ?_, rfl⟩
      exact getLast?_run sid raw _ _ rfl
    | some g =>
      by_cases h : g.files = []
      · refine ⟨OutEvent.error (lit "No files were generated. Please try again."), ?_, rfl⟩
        simp only [generateRun, extractAndStream, h]
        exact getLast?_run sid raw _ _ rfl
      · refine ⟨OutEvent.complete sid g.files.length, ?_, rfl⟩
        have htail : extractAndStream sid (some g) =
            (g.files.map streamOneFile).flatten ++
              [OutEvent.complete sid g.files.length] := by
          simp [extractAndStream, h]
        simp only [generateRun]
        exact getLast?_run sid raw _ _ (by rw [htail]; simp)

/-- C1, witness: the streaming branch of the amended claim at a concrete
one-file structured output. -/
theorem C1_witness :
    extractAndStream (lit "s") (some ⟨[⟨some (lit "a.js"), some (lit "x")⟩]⟩) =
      (([⟨some (lit "a.js"), some (lit "x")⟩] : List FileData).map streamOneFile).flatten ++
        [OutEvent.complete (lit "s") 1] :=
  C1_theorem.1 (lit "s") ⟨[⟨some (lit "a.js"), some (lit "x")⟩]⟩ (by decide)

theorem takeWhile_append_cons (p : Char → Bool) (a : Str) (c : Char) (rest : Str)
    (ha : ∀ x ∈ a, p x = true) (hc : p c = false) :
    (a ++ c :: rest).takeWhile p = a := by
  induction a with
  | nil => simp [List.takeWhile_cons, hc]
  | cons x xs ih =>
    have hx : p x = true := ha x (List.mem_cons_self x xs)
    rw [List.cons_append, List.takeWhile_cons_of_pos hx,
      ih (fun y hy => ha y (List.mem_cons_of_mem x hy))]

theorem splitsDesc_head (p : Char → Bool) (s : Str) :
    splitsDesc p s = (s.takeWhile p, s.drop (s.takeWhile p).length) ::
      ((List.range (s.takeWhile p).length).reverse).map
        (fun k => ((s.takeWhile p).take k,
          (s.takeWhile p).drop k ++ s.drop (s.takeWhile p).length)) := by
  unfold splitsDesc
  rw [Nat.succ_eq_add_one, List.range_succ, List.reverse_append]
  simp

theorem tryCBD_eq_tryBD (s : Str) (h : startsWithL (lit "//") s = false) :
    tryCBD s = tryBD s := by
  unfold tryCBD
  split
  · exfalso
    have hlit : lit "//" = ['/', '/'] := rfl
    rw [hlit] at h
    simp [startsWithL] at h
  · rfl

theorem dropWhile_append_singleton_ne_nil (p : Char → Bool) (l : Str) (a : Char)
    (ha : p a = false) : (l ++ [a]).dropWhile p ≠ [] := by
  induction l with
  | nil => simp [List.dropWhile_cons, ha]
  | cons c cs ih =>
    by_cases hc : p c = true
    · simpa [List.dropWhile_cons, hc] using ih
    · simp [List.dropWhile_cons, Bool.eq_false_iff.mpr hc]

theorem pyStrip_head_not_space (hc : Char) (l1t : Str) (h : isSpaceChar hc = false) :
    pyStrip (hc :: l1t) ≠ [] := by
  unfold pyStrip
  rw [List.dropWhile_cons_of_neg (by simp [h])]
  intro hnil
  rw [List.reverse_eq_nil_iff] at hnil
  have : (hc :: l1t).reverse = l1t.reverse ++ [hc] := by simp
  rw [this] at hnil
  exact dropWhile_append_singleton_ne_nil isSpaceChar l1t.reverse hc h hnil

theorem tryBD_happy (hc : Char) (l1t r tail2 : Str)
    (hnonl : ∀ x ∈ hc :: l1t, (!(x = '\n')) = true)
    (hfencesplit : splitAtFence tail2 = some (r, [])) :
    tryBD ((hc :: l1t) ++ '\n' :: tail2) = some (hc :: l1t, r, []) := by
  unfold tryBD
  rw [takeWhile_append_cons _ _ _ _ hnonl (by simp)]
  rw [List.drop_left]
  show Option.map (fun pr => ((hc :: l1t : Str), pr.1, pr.2)) (splitAtFence tail2) =
    some (hc :: l1t, r, [])
  rw [hfencesplit]
  rfl

theorem tryBCBD_happy (hc : Char) (l1t r : Str)
    (hhd : isSpaceChar hc = false)
    (hnoslash : startsWithL (lit "//") ((hc :: l1t) ++ '\n' :: (r ++ lit "```")) = false)
    (hnonl : ∀ x ∈ hc :: l1t, (!(x = '\n')) = true)
    (hfencesplit : splitAtFence (r ++ lit "```") = some (r, [])) :
    tryBCBD ('\n' :: ((hc :: l1t) ++ '\n' :: (r ++ lit "```"))) =
      some (hc :: l1t, r, []) := by
  unfold tryBCBD
  rw [splitsDesc_head]
  have htw : ('\n' :: ((hc :: l1t) ++ '\n' :: (r ++ lit "```"))).takeWhile isSpaceChar =
      ['\n'] := by
    rw [List.takeWhile_cons_of_pos (by decide), List.cons_append,
      List.takeWhile_cons_of_neg (by simp [hhd])]
  rw [htw]
  rw [List.findSome?_cons]
  have hcbd : tryCBD ((hc :: l1t) ++ '\n' :: (r ++ lit "```")) =
      some (hc :: l1t, r, []) := by
    rw [tryCBD_eq_tryBD _ hnoslash]
    exact tryBD_happy hc l1t r (r ++ lit "```") hnonl hfencesplit
  have hdrop1 : (['\n'] : Str).length = 1 := rfl
  simp only [hdrop1, List.drop_succ_cons, List.drop_zero, hcbd]

theorem tryMatchAfterFence_happy (tag : Str) (hc : Char) (l1t r : Str)
    (htag : ∀ c ∈ tag, isWordChar c = true)
    (hhd : isSpaceChar hc = false)
    (hnoslash : startsWithL (lit "//") ((hc :: l1t) ++ '\n' :: (r ++ lit "```")) = false)
    (hnonl : ∀ x ∈ hc :: l1t, (!(x = '\n')) = true)
    (hfencesplit : splitAtFence (r ++ lit "```") = some (r, [])) :
    tryMatchAfterFence (tag ++ '\n' :: ((hc :: l1t) ++ '\n' :: (r ++ lit "```"))) =
      some (tag, hc :: l1t, r, []) := by
  unfold tryMatchAfterFence
  rw [splitsDesc_head]
  rw [takeWhile_append_cons isWordChar tag '\n'
    ((hc :: l1t) ++ '\n' :: (r ++ lit "```")) htag (by decide)]
  rw [List.drop_left]
  rw [List.findSome?_cons]
  rw [tryBCBD_happy hc l1t r hhd hnoslash hnonl hfencesplit]
  rfl

theorem findBlocksGo_big_skip : ∀ (s : Str) (k : Nat), s.length ≤ k → findBlocksGo k s = [] := by
  intro s
  induction s with
  | nil => intro k _; cases k <;> rfl
  | cons c rest ih =>
    intro k hk
    cases k with
    | zero => simp at hk
    | succ m =>
      show findBlocksGo (Nat.succ m) (c :: rest) = []
      rw [findBlocksGo]
      exact ih m (by simp at hk; omega)

theorem findBlocks_single_block (tag : Str) (hc : Char) (l1t r : Str)
    (htag : ∀ c ∈ tag, isWordChar c = true)
    (hhd : isSpaceChar hc = false)
    (hnoslash : startsWithL (lit "//") ((hc :: l1t) ++ '\n' :: (r ++ lit "```")) = false)
    (hnonl : ∀ x ∈ hc :: l1t, (!(x = '\n')) = true)
    (hfencesplit : splitAtFence (r ++ lit "```") = some (r, [])) :
    findBlocks (lit "```" ++ (tag ++ '\n' :: ((hc :: l1t) ++ '\n' :: (r ++ lit "```")))) =
      [(tag, hc :: l1t, r)] := by
  unfold findBlocks
  rw [show lit "```" ++ (tag ++ '\n' :: ((hc :: l1t) ++ '\n' :: (r ++ lit "```"))) =
    btick :: btick :: btick :: (tag ++ '\n' :: ((hc :: l1t) ++ '\n' :: (r ++ lit "```")))
    from rfl]
  rw [findBlocksGo]
  rw [if_pos (by simp [startsFence])]
  have hdrop2 : ((btick :: btick ::
      (tag ++ '\n' :: ((hc :: l1t) ++ '\n' :: (r ++ lit "```")))).drop 2) =
      tag ++ '\n' :: ((hc :: l1t) ++ '\n' :: (r ++ lit "```")) := rfl
  rw [hdrop2, tryMatchAfterFence_happy tag hc l1t r htag hhd hnoslash hnonl hfencesplit]
  show (tag, hc :: l1t, r) :: findBlocksGo
      ((btick :: btick :: (tag ++ '\n' :: ((hc :: l1t) ++ '\n' :: (r ++ lit "```")))).length - 0)
      (btick :: btick :: (tag ++ '\n' :: ((hc :: l1t) ++ '\n' :: (r ++ lit "```")))) =
    [(tag, hc :: l1t, r)]
  rw [findBlocksGo_big_skip _ _ (by simp)]

/-- Transcription of the path-determination rules as claim C4 states them
(identical to the source up to the order in which the JavaScript-family
tags are listed). -/
def specPathRule (language potential_path : Str) : Str :=
  if potential_path ≠ [] && (potential_path.contains '/' || potential_path.contains '.') then
    potential_path
  else if language = lit "jsx" || language = lit "js" || language = lit "javascript" then
    lit "src/" ++ (if potential_path = [] then lit "App" else potential_path) ++ lit ".jsx"
  else if language = lit "css" then
    lit "src/" ++ (if potential_path = [] then lit "App" else potential_path) ++ lit ".css"
  else if language = lit "html" then
    lit "public/index.html"
  else
    lit "src/Component." ++ (if language = [] then lit "jsx" else language)

/-- C4: for every matched fenced block, a non-empty hint containing `/` or
`.` is the path verbatim, and otherwise the path is inferred from the
language tag exactly as the claim enumerates; in particular an untagged,
hint-less block maps to `src/Component.jsx` and a `css`-tagged hint-less
block maps to `src/App.css`. -/
theorem C4_theorem :
    (∀ language potential_path,
      determine_file_path language potential_path = specPathRule language potential_path) ∧
    determine_file_path [] [] = lit "src/Component.jsx" ∧
    determine_file_path (lit "css") [] = lit "src/App.css" := by
  refine ⟨?_, by decide, by decide⟩
  intro l h
  have hcond : (l = lit "javascript" || l = lit "jsx" || l = lit "js") =
      (l = lit "jsx" || l = lit "js" || l = lit "javascript") := by
    by_cases h1 : l = lit "javascript" <;> by_cases h2 : l = lit "jsx" <;>
      by_cases h3 : l = lit "js" <;> simp [h1, h2, h3]
  unfold determine_file_path specPathRule
  rw [hcond]

/-- C10: when the opening fence line carries no same-line hint (the
optional tag is followed immediately by the newline), the regex's greedy
`\s*` consumes that newline and the first body line is captured as the
path hint: the extractor stores the body without that line, and a first
line containing `/` or `.` becomes the file path verbatim. -/
theorem C10_theorem (tag : Str) (hc : Char) (l1t r : Str)
    (htag : ∀ c ∈ tag, isWordChar c = true)
    (hhd : isSpaceChar hc = false)
    (hnoslash : startsWithL (lit "//") ((hc :: l1t) ++ '\n' :: (r ++ lit "```")) = false)
    (hnonl : ∀ x ∈ hc :: l1t, (!(x = '\n')) = true)
    (hfencesplit : splitAtFence (r ++ lit "```") = some (r, [])) :
    parse_code_from_response
        (lit "```" ++ (tag ++ '\n' :: ((hc :: l1t) ++ '\n' :: (r ++ lit "```")))) =
      [(determine_file_path tag (pyStrip (hc :: l1t)), pyStrip r)] ∧
    (((pyStrip (hc :: l1t)).contains '/' = true ∨
        (pyStrip (hc :: l1t)).contains '.' = true) →
      determine_file_path tag (pyStrip (hc :: l1t)) = pyStrip (hc :: l1t)) := by
  constructor
  · unfold parse_code_from_response fencedPass
    rw [findBlocks_single_block tag hc l1t r htag hhd hnoslash hnonl hfencesplit]
    simp [dictInsert]
  · intro h
    have hne := pyStrip_head_not_space hc l1t hhd
    unfold determine_file_path
    rcases h with h | h
    · rw [if_pos (by simp [hne]; exact Or.inl (by simpa using h))]
    · rw [if_pos (by simp [hne]; exact Or.inr (by simpa using h))]

/-- C10, witness: a `jsx`-tagged fence followed immediately by a newline,
whose first body line `src/App.jsx` becomes the file path, excluded from
the stored content. -/
theorem C10_witness :
    parse_code_from_response (lit "```" ++ (lit "jsx" ++ '\n' ::
        (('s' :: lit "rc/App.jsx") ++ '\n' :: (lit "body()\n" ++ lit "```")))) =
      [(determine_file_path (lit "jsx") (pyStrip ('s' :: lit "rc/App.jsx")),
        pyStrip (lit "body()\n"))] :=
  (C10_theorem (lit "jsx") 's' (lit "rc/App.jsx") (lit "body()\n")
    (by decide) (by decide) (by decide) (by decide) (by decide)).1

/-- C5: evaluation of `parse_claude_response` at the failing input
`File: a.txt\nline1\nline2`.  The primary pass finds no fenced block, so
the fallback marker pass runs, but — because the pattern is compiled with
`re.MULTILINE`, which makes the `$` of its lookahead match before every
newline — the lazy content group stops at the first line end: the stored
content is `line1` alone, not the claimed content up to the next marker or
end of text (`line1\nline2`). -/
theorem C5_theorem :
    parse_claude_response (lit "File: a.txt\nline1\nline2") =
      [(lit "a.txt", lit "line1")] ∧
    fencedPass (lit "File: a.txt\nline1\nline2") = [] ∧
    lit "line1" ≠ lit "line1\nline2" := by
  refine ⟨by decide, by decide, by decide⟩

/-- Transcription of the claim-C6 normalizer: rules tried in the claimed
order, with the tool-invocation rule strictly before the tool-result rule
at event level. -/
def specNormalizeClaim (e : AdkEvent) : Option ProcessedEvent :=
  match e.content with
  | none => none
  | some c =>
    if e.is_final && !(joinTexts c.parts = []) then
      some (.agent_response e.author (joinTexts c.parts) true)
    else if !e.is_final && !(joinTexts c.parts = []) then
      some (.agent_response e.author (joinTexts c.parts) false)
    else if c.parts.any (fun p => p.function_call.isSome) then
      match c.parts.findSome? (fun p => p.function_call) with
      | some fc => some (.tool_call fc.name fc.args)
      | none => none
    else
      match c.parts.findSome? (fun p => p.function_response) with
      | some fr => some (.tool_response fr.name fr.response)
      | none => none

/-- The amended-C6 normalizer: identical to the claimed rule order except
that the tool rules scan the parts in order, checking each part for an
invocation before a result, so the first part carrying either decides the
output. -/
def specNormalizeAmended (e : AdkEvent) : Option ProcessedEvent :=
  match e.content with
  | none => none
  | some c =>
    if e.is_final && !(joinTexts c.parts = []) then
      some (.agent_response e.author (joinTexts c.parts) true)
    else if !e.is_final && !(joinTexts c.parts = []) then
      some (.agent_response e.author (joinTexts c.parts) false)
    else firstToolEvent c.parts

/-- C6, counterexample: an event whose first part carries a tool result and
whose second part carries a tool invocation, with no text.  The claimed
rule order would emit the `ToolCall`; `process_agent_event` scans the
parts in order and emits the `ToolResult` of the first part. -/
theorem C6_counterexample :
    ¬ (∀ e, process_agent_event e = specNormalizeClaim e) := by
  intro h
  have hev := h ⟨lit "a", some ⟨[⟨none, none, some ⟨lit "t1", lit "r1"⟩⟩,
    ⟨none, some ⟨lit "t2", lit "g2"⟩, none⟩]⟩, false⟩
  exact absurd hev (by decide)

/-- C6, amended: the normalizer maps one raw event to at most one canonical
event with only the first matching rule firing — no content yields
nothing, final with non-empty joined text yields the final agent message,
non-final with non-empty joined text yields the non-final agent message,
and otherwise the parts are scanned in order with invocation checked
before result within each part; an event with both non-empty text and a
tool call still yields the agent message, never the tool call. -/
theorem C6_theorem : ∀ e, process_agent_event e = specNormalizeAmended e := by
  intro e
  unfold process_agent_event specNormalizeAmended
  cases e.content with
  | none => rfl
  | some c =>
    by_cases htx : joinTexts c.parts = []
    · by_cases hp : c.parts = [] <;>
        simp [htx, hp, show joinTexts ([] : List AdkPart) = [] from rfl]
    · have hp : ¬(c.parts = []) := by
        intro hnil
        rw [hnil] at htx
        exact htx rfl
      by_cases hf : e.is_final <;> simp [htx, hp, hf]

/-- C7: with a resolvable session id the stored session is returned and the
store is unchanged (so a second call with the same id returns the same
session and creates nothing); an exception or a missing record during the
lookup falls through to creation instead of surfacing an error; with no
session id a session with the service-generated fresh identifier is always
created, and a genuinely fresh identifier differs from every stored
session's id. -/
theorem C7_theorem :
    (∀ (svc : SessionService) (u sid app : Str) (s : AdkSession),
      sid ≠ [] →
      svc.lookup_raises u sid = false →
      svc.sessions.find? (fun t => t.user_id = u && t.id = sid) = some s →
      get_user_session svc u (some sid) app = (svc, s) ∧
      get_user_session (get_user_session svc u (some sid) app).1 u (some sid) app =
        (svc, s)) ∧
    (∀ (svc : SessionService) (u sid app : Str),
      sid ≠ [] →
      (svc.lookup_raises u sid = true ∨
        svc.sessions.find? (fun t => t.user_id = u && t.id = sid) = none) →
      get_user_session svc u (some sid) app =
        (⟨svc.sessions ++ [⟨sid, u, app, [], []⟩], svc.fresh, svc.lookup_raises⟩,
          ⟨sid, u, app, [], []⟩)) ∧
    (∀ (svc : SessionService) (u app : Str),
      get_user_session svc u none app =
        (⟨svc.sessions ++ [⟨svc.fresh, u, app, [], []⟩], svc.fresh, svc.lookup_raises⟩,
          ⟨svc.fresh, u, app, [], []⟩) ∧
      (svc.fresh ∉ svc.sessions.map AdkSession.id →
        ∀ t ∈ svc.sessions, svc.fresh ≠ t.id)) := by
  refine ⟨?_, ?_, ?_⟩
  · intro svc u sid app s hsid hraise hfind
    have h1 : get_user_session svc u (some sid) app = (svc, s) := by
      unfold get_user_session svcGetSession
      rw [if_pos (by simpa using hsid)]
      simp only [Option.getD_some, hraise, if_neg Bool.false_ne_true, hfind]
    exact ⟨h1, by rw [h1]; exact h1⟩
  · intro svc u sid app hsid hfail
    unfold get_user_session svcGetSession svcCreateSession
    rw [if_pos (by simpa using hsid)]
    rcases hfail with h | h
    · simp [h]
    · by_cases hr : svc.lookup_raises u sid = true
      · simp [hr]
      · simp [hr, h]
  · intro svc u app
    refine ⟨?_, ?_⟩
    · unfold get_user_session svcCreateSession
      rw [if_neg (by simp)]
      rfl
    · intro hfresh t ht heq
      exact hfresh (List.mem_map.mpr ⟨t, ht, heq.symm⟩)

/-- C7, witness: a concrete service with one stored session; the lookup
resolves and the stored session is returned with the store unchanged. -/
theorem C7_witness :
    get_user_session
        ⟨[⟨lit "s1", lit "u", lit "app", [], []⟩], lit "s2", fun _ _ => false⟩
        (lit "u") (some (lit "s1")) (lit "app") =
      (⟨[⟨lit "s1", lit "u", lit "app", [], []⟩], lit "s2", fun _ _ => false⟩,
        ⟨lit "s1", lit "u", lit "app", [], []⟩) :=
  (C7_theorem.1 ⟨[⟨lit "s1", lit "u", lit "app", [], []⟩], lit "s2", fun _ _ => false⟩
    (lit "u") (lit "s1") (lit "app") ⟨lit "s1", lit "u", lit "app", [], []⟩
    (by decide) rfl (by decide)).1

/-- An anonymous stored session used to build concrete collections. -/
def blankSession : AdkSession := ⟨[], [], [], [], []⟩

/-- C8: `list_user_sessions` returns the empty slice and total 0 for every
user, page and page size, because the source initializes `sessions = []`
and never fetches the stored collection; the Session Store contract of the
specification, applied to a 15-session collection at page 2 with page size
10, would return exactly the 5 sessions at indices 10..14 with total 15. -/
theorem C8_theorem :
    (∀ (u : Str) (page page_size : Nat),
      (list_user_sessions u page page_size).sessions = [] ∧
      (list_user_sessions u page page_size).total = 0) ∧
    (listSpec (List.replicate 15 blankSession) 2 10).1 =
      (List.replicate 15 blankSession).drop 10 ∧
    ((listSpec (List.replicate 15 blankSession) 2 10).1).length = 5 ∧
    (listSpec (List.replicate 15 blankSession) 2 10).2 = 15 ∧
    (list_user_sessions (lit "u") 2 10).sessions ≠
      (listSpec (List.replicate 15 blankSession) 2 10).1 := by
  refine ⟨?_, by decide, by decide, by decide, by decide⟩
  intro u page page_size
  unfold list_user_sessions pySliceNat
  simp

/-- C9: the four recognized backend-failure categories map, in the source's
precedence order, to four pairwise-distinct user-facing messages, none of
which can be produced by the generic wrapper; any unrecognized failure is
wrapped generically; the authentication message contains `API key`; and a
failure raised mid-stream appends exactly one `error` event after the
already-emitted (error-free) events, with nothing following it. -/
theorem C9_theorem :
    (∀ m, isSubstr (lit "rate_limit") (lowerStr m) = true →
      classify_error m = lit "Rate limit exceeded. Please wait a moment and try again.") ∧
    (∀ m, isSubstr (lit "rate_limit") (lowerStr m) = false →
      (isSubstr (lit "authentication") (lowerStr m) = true ∨
        isSubstr (lit "api_key") (lowerStr m) = true) →
      classify_error m =
        lit "Invalid API key. Please check your ANTHROPIC_API_KEY in .env file.") ∧
    (∀ m, isSubstr (lit "rate_limit") (lowerStr m) = false →
      isSubstr (lit "authentication") (lowerStr m) = false →
      isSubstr (lit "api_key") (lowerStr m) = false →
      isSubstr (lit "not_found") (lowerStr m) = true →
      classify_error m =
        lit "Model not found. The specified Claude model may not be available with your API key.") ∧
    (∀ m, isSubstr (lit "rate_limit") (lowerStr m) = false →
      isSubstr (lit "authentication") (lowerStr m) = false →
      isSubstr (lit "api_key") (lowerStr m) = false →
      isSubstr (lit "not_found") (lowerStr m) = false →
      isSubstr (lit "overloaded") (lowerStr m) = true →
      classify_error m =
        lit "Claude API is currently overloaded. Please try again in a moment.") ∧
    (∀ m, isSubstr (lit "rate_limit") (lowerStr m) = false →
      isSubstr (lit "authentication") (lowerStr m) = false →
      isSubstr (lit "api_key") (lowerStr m) = false →
      isSubstr (lit "not_found") (lowerStr m) = false →
      isSubstr (lit "overloaded") (lowerStr m) = false →
      classify_error m = lit "Error generating code: " ++ m) ∧
    ((lit "Rate limit exceeded. Please wait a moment and try again." ≠
        lit "Invalid API key. Please check your ANTHROPIC_API_KEY in .env file.") ∧
      (lit "Rate limit exceeded. Please wait a moment and try again." ≠
        lit "Model not found. The specified Claude model may not be available with your API key.") ∧
      (lit "Rate limit exceeded. Please wait a moment and try again." ≠
        lit "Claude API is currently overloaded. Please try again in a moment.") ∧
      (lit "Invalid API key. Please check your ANTHROPIC_API_KEY in .env file." ≠
        lit "Model not found. The specified Claude model may not be available with your API key.") ∧
      (lit "Invalid API key. Please check your ANTHROPIC_API_KEY in .env file." ≠
        lit "Claude API is currently overloaded. Please try again in a moment.") ∧
      (lit "Model not found. The specified Claude model may not be available with your API key." ≠
        lit "Claude API is currently overloaded. Please try again in a moment.")) ∧
    (∀ m, lit "Error generating code: " ++ m ≠
      lit "Invalid API key. Please check your ANTHROPIC_API_KEY in .env file.") ∧
    isSubstr (lit "API key")
      (lit "Invalid API key. Please check your ANTHROPIC_API_KEY in .env file.") = true ∧
    (∀ (emitted : List OutEvent) (m : Str),
      (∀ e ∈ emitted, isErrorEv e = false) →
      isSubstr (lit "rate_limit") (lowerStr m) = false →
      isSubstr (lit "authentication") (lowerStr m) = true →
      (v0RunWithFailure emitted m).countP isErrorEv = 1 ∧
      (v0RunWithFailure emitted m).getLast? =
        some (OutEvent.error
          (lit "Invalid API key. Please check your ANTHROPIC_API_KEY in .env file.")) ∧
      isErrorContaining (lit "API key")
        (OutEvent.error
          (lit "Invalid API key. Please check your ANTHROPIC_API_KEY in .env file.")) = true) := by
  refine ⟨?_, ?_, ?_, ?_, ?_, by decide, ?_, by decide, ?_⟩
  · intro m h
    unfold classify_error
    rw [if_pos h]
  · intro m h1 h2
    unfold classify_error
    rw [if_neg (by simp [h1]), if_pos (by rcases h2 with h | h <;> simp [h])]
  · intro m h1 h2 h3 h4
    unfold classify_error
    rw [if_neg (by simp [h1]), if_neg (by simp [h2, h3]), if_pos h4]
  · intro m h1 h2 h3 h4 h5
    unfold classify_error
    rw [if_neg (by simp [h1]), if_neg (by simp [h2, h3]), if_neg (by simp [h4]),
      if_pos h5]
  · intro m h1 h2 h3 h4 h5
    unfold classify_error
    rw [if_neg (by simp [h1]), if_neg (by simp [h2, h3]), if_neg (by simp [h4]),
      if_neg (by simp [h5])]
  · intro m h
    have h1 : (lit "Invalid API key. Please check your ANTHROPIC_API_KEY in .env file.").head? =
        some 'E' := by
      rw [← h]
      rfl
    exact absurd h1 (by decide)
  · intro emitted m hemit h1 h2
    have hcls : classify_error m =
        lit "Invalid API key. Please check your ANTHROPIC_API_KEY in .env file." := by
      unfold classify_error
      rw [if_neg (by simp [h1]), if_pos (by simp [h2])]
    refine ⟨?_, ?_, by decide⟩
    · unfold v0RunWithFailure
      rw [List.countP_append, List.countP_eq_zero.mpr (by simpa using hemit)]
      simp [hcls, isErrorEv, List.countP_cons]
    · unfold v0RunWithFailure
      rw [hcls]
      simp

/-- C9, witness: an authentication failure raised after one already-emitted
file event yields exactly one trailing error whose message contains
`API key`. -/
theorem C9_witness :
    (v0RunWithFailure [OutEvent.fileStart (lit "a.js") 1]
        (lit "authentication_error: bad key")).countP isErrorEv = 1 ∧
      (v0RunWithFailure [OutEvent.fileStart (lit "a.js") 1]
        (lit "authentication_error: bad key")).getLast? =
      some (OutEvent.error
        (lit "Invalid API key. Please check your ANTHROPIC_API_KEY in .env file.")) :=
  ⟨((C9_theorem.2.2.2.2.2.2.2.2) [OutEvent.fileStart (lit "a.js") 1]
      (lit "authentication_error: bad key") (by decide) (by decide) (by decide)).1,
    ((C9_theorem.2.2.2.2.2.2.2.2) [OutEvent.fileStart (lit "a.js") 1]
      (lit "authentication_error: bad key") (by decide) (by decide) (by decide)).2.1⟩
